import Mathlib

/-!
Shallow embedding of the `mp3codec~` Max/MSP external (src/mp3codec~.c).

Audio samples are modelled as rationals; a stereo sample is a pair.  The
external LAME engine is opaque in the source, so its calls are passed in as
oracle functions (`enc`, `dec`) and an outcome record (`LameOracle`).  The C
buffers (`encode_buffer_left/right` up to `encode_buffer_fill`, the
`mp3_accumulator` up to its fill) are modelled as the lists of their filled
prefixes; the fixed-size output ring is modelled as position-indexed stores
with explicit cursors.
-/

namespace Mp3Codec

/-- Fixed MPEG1 frame size in samples per channel (`#define MP3_FRAME_SIZE 1152`). -/
def MP3_FRAME_SIZE : Nat := 1152

/-- Capacity of the compressed-byte accumulator (`#define DECODE_BUFFER_SIZE 16384`). -/
def DECODE_BUFFER_SIZE : Nat := 16384

/-- Ring buffer capacity: four frames (`x->ring_size = MP3_FRAME_SIZE * 4`). -/
def ringSize : Nat := MP3_FRAME_SIZE * 4

/-- Quality-to-bitrate table (`static const int QUALITY_BITRATES[10]`). -/
def QUALITY_BITRATES : List Int := [320, 256, 192, 160, 128, 112, 96, 64, 40, 32]

/-- Bitrate looked up for a quality ordinal, as `QUALITY_BITRATES[x->quality]`. -/
def qbitrate (q : Int) : Int := QUALITY_BITRATES.getD q.toNat 0

/-- The Max SDK CLAMP macro on integers. -/
def CLAMP (x lo hi : Int) : Int := if x < lo then lo else if x > hi then hi else x

/-- Truncation toward zero: the effect of the C cast `(int)` on a real value. -/
def ctrunc (q : ℚ) : Int := if 0 ≤ q then Int.floor q else Int.ceil q

/-- The helper `float_to_short`: scale by 32767, truncate, clamp to 16-bit range. -/
def float_to_short (sample : ℚ) : Int :=
  let value := ctrunc (sample * 32767)
  if value > 32767 then 32767 else if value < -32768 then -32768 else value

/-- The helper `short_to_float`: divide a 16-bit sample by 32767. -/
def short_to_float (sample : Int) : ℚ := (sample : ℚ) / 32767

/-- Output ring buffer state: the per-channel sample stores
(`output_ring_left/right`, modelled as functions from position to value) and
the two cursors.  The capacity is the constant `ringSize`. -/
structure RingBuf where
  dataL : Nat → ℚ
  dataR : Nat → ℚ
  writePos : Nat
  readPos : Nat

/-- Cursor advance with wrap, exactly as written in the source:
`pos++; if (pos >= x->ring_size) pos = 0;`. -/
def ringAdvance (p : Nat) : Nat := if p + 1 ≥ ringSize then 0 else p + 1

/-- Write one decoded stereo sample at the write cursor and advance it
(the body of the decoded-samples loop in the perform routine). -/
def ring_write_one (r : RingBuf) (s : ℚ × ℚ) : RingBuf :=
  { r with dataL := Function.update r.dataL r.writePos s.1,
           dataR := Function.update r.dataR r.writePos s.2,
           writePos := ringAdvance r.writePos }

/-- Write a run of decoded samples to the ring in order. -/
def ring_write (r : RingBuf) (xs : List (ℚ × ℚ)) : RingBuf := xs.foldl ring_write_one r

/-- Samples available between the cursors, as the perform routine computes it:
`write ≥ read ? write − read : (size − read) + write`. -/
def ring_available (r : RingBuf) : Int :=
  if r.writePos ≥ r.readPos then (r.writePos : Int) - (r.readPos : Int)
  else ((ringSize : Int) - (r.readPos : Int)) + (r.writePos : Int)

/-- Read one output sample: if `available > threshold` or delay compensation is
disabled, emit the sample under the read cursor scaled by the output gain and
advance the cursor; otherwise hold the cursor and emit silence. -/
def ring_read_one (gain : ℚ) (thresh : Int) (comp : Bool) (r : RingBuf) :
    (ℚ × ℚ) × RingBuf :=
  if ring_available r > thresh ∨ comp = false then
    ((r.dataL r.readPos * gain, r.dataR r.readPos * gain),
     { r with readPos := ringAdvance r.readPos })
  else ((0, 0), r)

/-- Read `n` output samples in sequence (the output loop of the perform routine). -/
def ring_read (gain : ℚ) (thresh : Int) (comp : Bool) (r : RingBuf) :
    Nat → List (ℚ × ℚ) × RingBuf
  | 0 => ([], r)
  | n + 1 =>
    let o1 := ring_read_one gain thresh comp r
    let rest := ring_read gain thresh comp o1.2 n
    (o1.1 :: rest.1, rest.2)

/-- Modelled state of the `t_mp3codec` struct: the configuration fields, the
`initialized` flag, presence of the LAME handles (`gfp`, `hip`) and of the
allocated buffers, the filled prefixes of the encode buffer and byte
accumulator, the output ring, and the latency summary. -/
structure CState where
  quality : Int
  input_gain : ℚ
  output_gain : ℚ
  bypass : Bool
  enable_lowpass : Bool
  enable_highpass : Bool
  enable_ms_stereo : Bool
  enable_ath_only : Bool
  enable_experimental : Bool
  enable_emphasis : Bool
  sample_rate : Int
  initialized : Bool
  handlesPresent : Bool
  buffersPresent : Bool
  encodeBuf : List (ℚ × ℚ)
  mp3Acc : List Nat
  ring : RingBuf
  total_latency_samples : Int
  total_latency_ms : ℚ
  lame_encoder_delay : Int
  lame_decoder_delay : Int
  buffer_latency_samples : Int
  decode_delay_compensation : Bool

/-- Append an encoded chunk to the byte accumulator when it fits
(`if (fill + mp3_bytes < DECODE_BUFFER_SIZE) memcpy ...`), else drop the
chunk and leave the accumulator unchanged. -/
def append_chunk (acc chunk : List Nat) : List Nat :=
  if acc.length + chunk.length < DECODE_BUFFER_SIZE then acc ++ chunk else acc

/-- The decode stage run after an encode produced bytes: append the chunk if it
fits, call `hip_decode` once on the accumulator, and dispatch on the result —
positive: convert and write the decoded samples to the ring, then clear the
accumulator; zero: keep the accumulator for further accumulation; negative:
clear the accumulator and continue. -/
def decode_branch (dec : List Nat → Int × List (Int × Int)) (st : CState)
    (bytes : List Nat) : CState :=
  let acc := append_chunk st.mp3Acc bytes
  let res := dec acc
  if res.1 > 0 then
    let samples := (res.2.take res.1.toNat).map
      (fun p => (short_to_float p.1, short_to_float p.2))
    { st with ring := ring_write st.ring samples, mp3Acc := [] }
  else if res.1 = 0 then { st with mp3Acc := acc }
  else { st with mp3Acc := [] }

/-- Hand one full frame to the encoder: convert the buffer to 16-bit
(`float_to_short` on each channel), call `lame_encode_buffer`, reset the
encode buffer fill, and — only when the encoder returned bytes — run the
decode stage on them. -/
def emit_frame (enc : List (Int × Int) → List Nat)
    (dec : List Nat → Int × List (Int × Int))
    (st : CState) (buf : List (ℚ × ℚ)) : CState :=
  if (enc (buf.map (fun p => (float_to_short p.1, float_to_short p.2)))).length > 0 then
    decode_branch dec { st with encodeBuf := [] }
      (enc (buf.map (fun p => (float_to_short p.1, float_to_short p.2))))
  else { st with encodeBuf := [] }

/-- One input sample through the accumulation loop of the perform routine
(per-sample rendition of the chunked copy loop: the source copies
`min(remaining, frameSize − fill)` samples per pass and then tests fullness,
which coincides with testing fullness after each copied sample).  The
gain-scaled sample is appended to the encode buffer; when the buffer reaches
the frame size the processor state is re-checked (resetting the buffer and
breaking out of the loop when invalid), and the frame is handed to the
encoder.  The emitted frames are returned alongside the state; the final Bool
is the `break` of the source loop. -/
def process_sample (enc : List (Int × Int) → List Nat)
    (dec : List Nat → Int × List (Int × Int))
    (st : CState) (s : ℚ × ℚ) : CState × List (List (ℚ × ℚ)) × Bool :=
  if (st.encodeBuf ++ [(s.1 * st.input_gain, s.2 * st.input_gain)]).length
      ≥ MP3_FRAME_SIZE then
    if st.initialized = false ∨ st.handlesPresent = false then
      ({ st with encodeBuf := [] }, [], true)
    else
      (emit_frame enc dec st
        (st.encodeBuf ++ [(s.1 * st.input_gain, s.2 * st.input_gain)]),
       [st.encodeBuf ++ [(s.1 * st.input_gain, s.2 * st.input_gain)]], false)
  else
    ({ st with encodeBuf :=
        st.encodeBuf ++ [(s.1 * st.input_gain, s.2 * st.input_gain)] }, [], false)

/-- The input-chunking loop `while (samples_processed < sampleframes)` of the
perform routine, instrumented with the list of frames handed to the encoder. -/
def process_input (enc : List (Int × Int) → List Nat)
    (dec : List Nat → Int × List (Int × Int)) :
    CState → List (ℚ × ℚ) → CState × List (List (ℚ × ℚ))
  | st, [] => (st, [])
  | st, s :: rest =>
    let r1 := process_sample enc dec st s
    if r1.2.2 then (r1.1, r1.2.1)
    else
      let r2 := process_input enc dec r1.1 rest
      (r2.1, r1.2.1 ++ r2.2)

/-- A sequence of host blocks fed through the accumulation loop (one
`process_input` run per perform call), collecting all emitted frames. -/
def process_blocks (enc : List (Int × Int) → List Nat)
    (dec : List Nat → Int × List (Int × Int)) :
    CState → List (List (ℚ × ℚ)) → CState × List (List (ℚ × ℚ))
  | st, [] => (st, [])
  | st, b :: bs =>
    let r1 := process_input enc dec st b
    let r2 := process_blocks enc dec r1.1 bs
    (r2.1, r1.2 ++ r2.2)

/-- The ring-buffer output stage of the perform routine: read one gated sample
per requested output sample. -/
def ring_output (st : CState) (n : Nat) : CState × List (ℚ × ℚ) :=
  let r := ring_read st.output_gain st.total_latency_samples
    st.decode_delay_compensation st.ring n
  ({ st with ring := r.2 }, r.1)

/-- The perform routine `mp3codec_perform64`: silence when `initialized` is
clear; gain passthrough in bypass; silence when the buffer pointers are NULL;
otherwise the frame-accumulation loop followed by the ring-buffer output
stage.  Inputs and outputs are the stereo block of `sampleframes` samples. -/
def mp3codec_perform64 (enc : List (Int × Int) → List Nat)
    (dec : List Nat → Int × List (Int × Int))
    (st : CState) (ins : List (ℚ × ℚ)) : CState × List (ℚ × ℚ) :=
  if st.initialized = false then (st, List.replicate ins.length (0, 0))
  else if st.bypass then
    (st, ins.map fun p =>
      (p.1 * st.input_gain * st.output_gain, p.2 * st.input_gain * st.output_gain))
  else if st.buffersPresent = false then (st, List.replicate ins.length (0, 0))
  else
    let st1 := (process_input enc dec st ins).1
    ring_output st1 ins.length

/-- Outcomes of the external LAME calls made during one
`mp3codec_init_processor` run: whether `lame_init` returned a handle, the signs
of the two possible `lame_init_params` results, whether `hip_decode_init`
returned a handle, and the reported `lame_get_encoder_delay`. -/
structure LameOracle where
  lame_init_ok : Bool
  init_params_ok : Bool
  init_params_fallback_ok : Bool
  hip_ok : Bool
  encoder_delay : Int

/-- `mp3codec_cleanup_processor`: disable processing, release the LAME handles
and all buffers, and reset the fill levels and ring cursors. -/
def mp3codec_cleanup_processor (st : CState) : CState :=
  { st with initialized := false, handlesPresent := false, buffersPresent := false,
            encodeBuf := [], mp3Acc := [],
            ring := { st.ring with writePos := 0, readPos := 0 } }

/-- The `lame_init_params` phase of initialization: on rejection, the 32 kbps
fallback is attempted only when the configured bitrate is at most 16 kbps
(`if (QUALITY_BITRATES[x->quality] <= 16)`).  Returns (success, fallback
attempted). -/
def init_params_phase (q : Int) (first second : Bool) : Bool × Bool :=
  if first then (true, false)
  else if qbitrate q ≤ 16 then (second, true)
  else (false, false)

/-- Fresh zero-initialized ring buffer (`sysmem_newptrclear`). -/
def freshRing : RingBuf :=
  { dataL := fun _ => 0, dataR := fun _ => 0, writePos := 0, readPos := 0 }

/-- `mp3codec_init_processor`: clean up, create the encoder, apply the
configuration to it, run the `lame_init_params` phase with its conditional
fallback, create the decoder, allocate fresh zeroed buffers, reset the fills
and cursors, and derive the latency summary (decoder delay fixed at 528,
buffer latency one frame, delay compensation disabled).  Returns the new state
and the C return code. -/
def mp3codec_init_processor (o : LameOracle) (st : CState) : CState × Int :=
  let st0 := mp3codec_cleanup_processor st
  if o.lame_init_ok = false then (st0, -1)
  else if (init_params_phase st0.quality o.init_params_ok
      o.init_params_fallback_ok).1 = false then (st0, -1)
  else if o.hip_ok = false then (st0, -1)
  else
    ({ st0 with handlesPresent := true, buffersPresent := true,
                encodeBuf := [], mp3Acc := [], ring := freshRing,
                lame_encoder_delay := o.encoder_delay,
                lame_decoder_delay := 528,
                buffer_latency_samples := (MP3_FRAME_SIZE : Int),
                total_latency_samples :=
                  o.encoder_delay + 528 + (MP3_FRAME_SIZE : Int),
                total_latency_ms :=
                  ((o.encoder_delay + 528 + (MP3_FRAME_SIZE : Int) : Int) : ℚ)
                    / (st0.sample_rate : ℚ) * 1000,
                decode_delay_compensation := false,
                initialized := true }, 0)

/-- A Max atom as sent by the latency report: float or long. -/
inductive MaxAtom
  | f (v : ℚ)
  | i (v : Int)
deriving DecidableEq

/-- `mp3codec_latency`: refuse when uninitialized, else emit the four-atom list
{totalMs, totalSamples, encoderDelaySamples, decoderDelaySamples}. -/
def mp3codec_latency (st : CState) : Option (List MaxAtom) :=
  if st.initialized = false then none
  else some [MaxAtom.f st.total_latency_ms, MaxAtom.i st.total_latency_samples,
             MaxAtom.i st.lame_encoder_delay, MaxAtom.i st.lame_decoder_delay]

/-- `mp3codec_quality`: disable processing, clamp and store the new quality; if
it changed, rebuild the processor, restoring the old quality and rebuilding
once more if the first rebuild failed; if unchanged, just re-enable
processing.  The two oracles are the outcomes of the up-to-two rebuilds; the
second component counts the `mp3codec_init_processor` calls made. -/
def mp3codec_quality (st : CState) (n : Int) (o1 o2 : LameOracle) : CState × Nat :=
  let sa := { st with initialized := false }
  let old_quality := sa.quality
  let sb := { sa with quality := CLAMP n 0 9 }
  if old_quality ≠ sb.quality then
    let r1 := mp3codec_init_processor o1 sb
    if r1.2 < 0 then
      let sc := { r1.1 with quality := old_quality }
      ((mp3codec_init_processor o2 sc).1, 2)
    else (r1.1, 1)
  else ({ sb with initialized := true }, 0)

/-- `mp3codec_lowpass`: store the new toggle value, disable processing, and
rebuild the processor exactly once, ignoring the rebuild's result.  The second
component counts the `mp3codec_init_processor` calls made. -/
def mp3codec_lowpass (st : CState) (n : Int) (o : LameOracle) : CState × Nat :=
  let sa := { st with enable_lowpass := n != 0 }
  let sb := { sa with initialized := false }
  ((mp3codec_init_processor o sb).1, 1)

/-- `mp3codec_reset`: disable processing and rebuild the processor exactly
once, reporting but not retrying a failure.  The second component counts the
`mp3codec_init_processor` calls made. -/
def mp3codec_reset (st : CState) (o : LameOracle) : CState × Nat :=
  let sa := { st with initialized := false }
  ((mp3codec_init_processor o sa).1, 1)

/-- A concrete fully-initialized state, matching the defaults of
`mp3codec_new` after a successful `mp3codec_init_processor` run. -/
def st0 : CState :=
  { quality := 5, input_gain := 1, output_gain := 1, bypass := false,
    enable_lowpass := true, enable_highpass := true, enable_ms_stereo := true,
    enable_ath_only := true, enable_experimental := true, enable_emphasis := true,
    sample_rate := 44100, initialized := true, handlesPresent := true,
    buffersPresent := true, encodeBuf := [], mp3Acc := [], ring := freshRing,
    total_latency_samples := 2256, total_latency_ms := 2256 / 44100 * 1000,
    lame_encoder_delay := 576, lame_decoder_delay := 528,
    buffer_latency_samples := 1152, decode_delay_compensation := false }

/-- A trivial encoder oracle producing no bytes. -/
def enc0 : List (Int × Int) → List Nat := fun _ => []

/-- A trivial decoder oracle reporting need-more-data. -/
def dec0 : List Nat → Int × List (Int × Int) := fun _ => (0, [])

/-- An all-successful LAME outcome with the typical 576-sample encoder delay. -/
def oracleOk : LameOracle := ⟨true, true, true, true, 576⟩

/-- A LAME outcome where `lame_init_params` rejects the configuration but the
fallback attempt would succeed. -/
def oracleRej : LameOracle := ⟨true, false, true, true, 576⟩

/-- A LAME outcome where `lame_init` itself fails. -/
def oracleNoHandle : LameOracle := ⟨false, true, true, true, 576⟩

/-- The state left behind by a failed initialization (handles and buffers
NULL, `initialized` clear), with bypass engaged. -/
def stFailBypass : CState :=
  { st0 with bypass := true, buffersPresent := false, handlesPresent := false,
             initialized := false }

/-- The state left behind by a failed initialization, bypass disengaged. -/
def stFail : CState :=
  { st0 with buffersPresent := false, handlesPresent := false,
             initialized := false }

/-- Every failure and success path of `mp3codec_init_processor` leaves the
configuration fields (quality and the toggles) as they were. -/
theorem init_processor_preserves_config (o : LameOracle) (s : CState) :
    (mp3codec_init_processor o s).1.quality = s.quality ∧
    (mp3codec_init_processor o s).1.enable_lowpass = s.enable_lowpass := by
  simp only [mp3codec_init_processor, mp3codec_cleanup_processor]
  split_ifs <;> simp

/-- Initialization fails outright when `lame_init` returns no handle. -/
theorem init_processor_fail (o : LameOracle) (s : CState)
    (h : o.lame_init_ok = false) : (mp3codec_init_processor o s).2 = -1 := by
  unfold mp3codec_init_processor
  simp [h]

/-- An unchanged-quality message only toggles `initialized` back on. -/
theorem quality_unchanged_aux (st : CState) (n : Int) (o1 o2 : LameOracle)
    (h : CLAMP n 0 9 = st.quality) :
    mp3codec_quality st n o1 o2 = ({ st with initialized := true }, 0) := by
  cases st
  unfold mp3codec_quality
  simp_all

/-- C5: a perform invocation that observes `initialized` equal to 0 writes
exactly zero-valued samples to both output channels for the full requested
block and returns with the entire state — encode buffer, byte accumulator,
ring buffer and codec handles — untouched. -/
theorem perform_uninitialized_silence
    (enc : List (Int × Int) → List Nat) (dec : List Nat → Int × List (Int × Int))
    (st : CState) (ins : List (ℚ × ℚ)) (h : st.initialized = false) :
    mp3codec_perform64 enc dec st ins = (st, List.replicate ins.length (0, 0)) := by
  simp [mp3codec_perform64, h]

/-- Witness for C5 at a concrete uninitialized state and a two-sample block. -/
theorem perform_uninitialized_silence_witness :
    ({ st0 with initialized := false } : CState).initialized = false ∧
    mp3codec_perform64 enc0 dec0 { st0 with initialized := false } [(1, 1), (2, 2)]
      = ({ st0 with initialized := false }, [(0, 0), (0, 0)]) :=
  ⟨rfl, perform_uninitialized_silence enc0 dec0 _ _ rfl⟩

/-- C8: when appending an encoded chunk would make the byte accumulator fill
reach or exceed `DECODE_BUFFER_SIZE`, the whole incoming chunk is dropped and
the existing accumulator contents and fill are left unchanged. -/
theorem accumulator_overflow_drop (acc chunk : List Nat)
    (h : DECODE_BUFFER_SIZE ≤ acc.length + chunk.length) :
    append_chunk acc chunk = acc := by
  unfold append_chunk
  rw [if_neg]
  omega

/-- Witness for C8: a full accumulator drops even an empty chunk. -/
theorem accumulator_overflow_drop_witness :
    DECODE_BUFFER_SIZE ≤ (List.replicate 16384 0 : List Nat).length + ([] : List Nat).length ∧
    append_chunk (List.replicate 16384 0) [] = List.replicate 16384 0 :=
  ⟨by unfold DECODE_BUFFER_SIZE; rw [List.length_replicate, List.length_nil],
    accumulator_overflow_drop _ _
      (by unfold DECODE_BUFFER_SIZE; rw [List.length_replicate, List.length_nil])⟩

/-- C3: for a decode call made after an encode produced bytes, a positive
result clears the byte accumulator before the next iteration, a zero result
preserves the accumulator (with the chunk appended after its previous
contents), and a negative result discards the accumulator, processing
continuing with the next frame. -/
theorem decode_result_accumulator_policy (dec : List Nat → Int × List (Int × Int))
    (st : CState) (bytes : List Nat) (hby : bytes ≠ []) :
    ((dec (append_chunk st.mp3Acc bytes)).1 > 0 →
      (decode_branch dec st bytes).mp3Acc = []) ∧
    ((dec (append_chunk st.mp3Acc bytes)).1 = 0 →
      (decode_branch dec st bytes).mp3Acc = append_chunk st.mp3Acc bytes) ∧
    ((dec (append_chunk st.mp3Acc bytes)).1 < 0 →
      (decode_branch dec st bytes).mp3Acc = []) := by
  refine ⟨fun hp => ?_, fun hz => ?_, fun hn => ?_⟩
  · simp [decode_branch, hp]
  · simp [decode_branch, hz]
  · have h1 : ¬ (dec (append_chunk st.mp3Acc bytes)).1 > 0 := by omega
    have h2 : ¬ (dec (append_chunk st.mp3Acc bytes)).1 = 0 := by omega
    simp [decode_branch, h1, h2]

/-- Witness for C3 with a need-more-data decoder and a one-byte chunk. -/
theorem decode_result_accumulator_policy_witness :
    ([1] : List Nat) ≠ [] ∧
    (((dec0 (append_chunk st0.mp3Acc [1])).1 > 0 →
        (decode_branch dec0 st0 [1]).mp3Acc = []) ∧
      ((dec0 (append_chunk st0.mp3Acc [1])).1 = 0 →
        (decode_branch dec0 st0 [1]).mp3Acc = append_chunk st0.mp3Acc [1]) ∧
      ((dec0 (append_chunk st0.mp3Acc [1])).1 < 0 →
        (decode_branch dec0 st0 [1]).mp3Acc = [])) :=
  ⟨by decide, decode_result_accumulator_policy dec0 st0 [1] (by decide)⟩

/-- C9: a quality message whose clamped value equals the current quality does
not rebuild the codec adapter or any buffer — no `mp3codec_init_processor`
call is made (count 0), the handles, buffer contents, fills and cursors are
exactly those of the incoming state — and `initialized` is 1 on return. -/
theorem quality_unchanged_noop (st : CState) (n : Int) (o1 o2 : LameOracle)
    (h : CLAMP n 0 9 = st.quality) :
    mp3codec_quality st n o1 o2 = ({ st with initialized := true }, 0) :=
  quality_unchanged_aux st n o1 o2 h

/-- Witness for C9 at the default state and its own quality value. -/
theorem quality_unchanged_noop_witness :
    CLAMP 5 0 9 = st0.quality ∧
    mp3codec_quality st0 5 oracleOk oracleOk = ({ st0 with initialized := true }, 0) :=
  ⟨by decide, quality_unchanged_noop st0 5 oracleOk oracleOk (by decide)⟩

/-- C2: after every successful initialization the stored total latency equals
the frame size plus the engine-reported encoder delay plus the fixed
528-sample decoder delay, and the latency query emits exactly the four values
totalMs, totalSamples, encoderDelaySamples, decoderDelaySamples in order. -/
theorem latency_total_and_query (o : LameOracle) (st : CState)
    (h : (mp3codec_init_processor o st).2 = 0) :
    (mp3codec_init_processor o st).1.total_latency_samples
        = (MP3_FRAME_SIZE : Int) + o.encoder_delay + 528 ∧
    mp3codec_latency (mp3codec_init_processor o st).1
        = some [MaxAtom.f (mp3codec_init_processor o st).1.total_latency_ms,
                MaxAtom.i (mp3codec_init_processor o st).1.total_latency_samples,
                MaxAtom.i o.encoder_delay, MaxAtom.i 528] := by
  simp only [mp3codec_init_processor, mp3codec_cleanup_processor] at h ⊢
  split_ifs at h ⊢
  · simp at h
  · simp at h
  · simp at h
  · refine ⟨?_, ?_⟩
    · simp [MP3_FRAME_SIZE]
      omega
    · simp [mp3codec_latency]

/-- Witness for C2: a successful initialization from the default state. -/
theorem latency_total_and_query_witness :
    (mp3codec_init_processor oracleOk st0).2 = 0 ∧
    ((mp3codec_init_processor oracleOk st0).1.total_latency_samples
        = (MP3_FRAME_SIZE : Int) + oracleOk.encoder_delay + 528 ∧
      mp3codec_latency (mp3codec_init_processor oracleOk st0).1
        = some [MaxAtom.f (mp3codec_init_processor oracleOk st0).1.total_latency_ms,
                MaxAtom.i (mp3codec_init_processor oracleOk st0).1.total_latency_samples,
                MaxAtom.i oracleOk.encoder_delay, MaxAtom.i 528]) :=
  ⟨rfl, latency_total_and_query oracleOk st0 rfl⟩

/-- C6 counterexample: at quality 9 (32 kbps), with the engine rejecting the
configuration and a fallback attempt certain to succeed, the
`lame_init_params` phase attempts no fallback and the initialization fails
immediately: the retry is guarded by `QUALITY_BITRATES[quality] <= 16`, which
no quality ordinal satisfies, so the claimed retry-before-failure never runs. -/
theorem init_fallback_cex :
    init_params_phase 9 false true = (false, false) ∧
    (mp3codec_init_processor oracleRej { st0 with quality := 9 }).2 = -1 :=
  ⟨by decide, rfl⟩

/-- C6 amended: the safe-fallback retry is guarded by a configured bitrate of
at most 16 kbps, and every quality ordinal 0–9 maps to at least 32 kbps, so
whenever the engine rejects the configuration the initializer declares failure
immediately, with no retry, regardless of whether the fallback would succeed. -/
theorem init_no_retry (q : Int) (s : Bool) (h1 : 0 ≤ q) (h2 : q ≤ 9) :
    init_params_phase q false s = (false, false) ∧ 32 ≤ qbitrate q := by
  interval_cases q <;>
    exact ⟨by unfold init_params_phase; rw [if_neg (by decide), if_neg (by decide)],
           by decide⟩

/-- Witness for the amended C6 at quality 9 with a would-succeed fallback. -/
theorem init_no_retry_witness :
    (0 : Int) ≤ 9 ∧ (9 : Int) ≤ 9 ∧
    (init_params_phase 9 false true = (false, false) ∧ 32 ≤ qbitrate 9) :=
  ⟨by decide, by decide, init_no_retry 9 true (by decide) (by decide)⟩

/-- C7 counterexample: a lowpass toggle flip whose rebuild fails (the engine
refuses `lame_init`) makes exactly one rebuild attempt, does not restore the
previous toggle value, and leaves the pipeline uninitialized: the toggle
handlers have no restore-and-retry path. -/
theorem reconfig_no_restore_cex :
    st0.enable_lowpass = true ∧
    (mp3codec_lowpass st0 0 { oracleOk with lame_init_ok := false }).2 = 1 ∧
    (mp3codec_lowpass st0 0 { oracleOk with lame_init_ok := false }).1.enable_lowpass
      = false ∧
    (mp3codec_lowpass st0 0 { oracleOk with lame_init_ok := false }).1.initialized
      = false :=
  ⟨rfl, rfl, rfl, rfl⟩

/-- C7 amended: only the quality-change handler restores the previous
configuration and retries the rebuild once when the first rebuild fails (two
initializer calls, old quality back in place); the toggle handlers and reset
perform a single rebuild, ignore its result, and keep the new configuration. -/
theorem reconfig_retry_policy (st : CState) (n m : Int) (o1 o2 o : LameOracle)
    (hch : CLAMP n 0 9 ≠ st.quality) (hfail : o1.lame_init_ok = false) :
    (mp3codec_quality st n o1 o2).2 = 2 ∧
    (mp3codec_quality st n o1 o2).1.quality = st.quality ∧
    (mp3codec_lowpass st m o).2 = 1 ∧
    (mp3codec_lowpass st m o).1.enable_lowpass = (m != 0) ∧
    (mp3codec_reset st o).2 = 1 := by
  have hq := fun (s : CState) => (init_processor_preserves_config o2 s).1
  have hl := fun (s : CState) => (init_processor_preserves_config o s).2
  unfold mp3codec_quality mp3codec_lowpass mp3codec_reset
  rw [if_pos (by simpa using Ne.symm hch)]
  rw [if_pos (show (mp3codec_init_processor o1 _).2 < 0 by
    rw [init_processor_fail o1 _ hfail]; norm_num)]
  refine ⟨rfl, ?_, rfl, ?_, rfl⟩
  · simpa using hq _
  · simpa using hl _

/-- Witness for the amended C7: quality 5 to 3 with a failing first rebuild,
and a lowpass flip to 0. -/
theorem reconfig_retry_policy_witness :
    CLAMP 3 0 9 ≠ st0.quality ∧
    ({ oracleOk with lame_init_ok := false } : LameOracle).lame_init_ok = false ∧
    ((mp3codec_quality st0 3 { oracleOk with lame_init_ok := false } oracleOk).2 = 2 ∧
      (mp3codec_quality st0 3 { oracleOk with lame_init_ok := false } oracleOk).1.quality
        = st0.quality ∧
      (mp3codec_lowpass st0 0 oracleOk).2 = 1 ∧
      (mp3codec_lowpass st0 0 oracleOk).1.enable_lowpass = ((0 : Int) != 0) ∧
      (mp3codec_reset st0 oracleOk).2 = 1) :=
  ⟨by decide, rfl,
    reconfig_retry_policy st0 3 0 { oracleOk with lame_init_ok := false } oracleOk
      oracleOk (by decide) rfl⟩

/-- C10 counterexample: with bypass enabled, the state left by a failed
initialization and re-armed by an unchanged-quality message does not emit
silence — the bypass branch of the perform routine runs before the NULL-buffer
check and passes the input through — so "every perform invocation emits
zero-valued output" does not hold for that state. -/
theorem quality_bypass_cex :
    stFailBypass.buffersPresent = false ∧
    (mp3codec_quality stFailBypass 5 oracleOk oracleOk).1.initialized = true ∧
    (mp3codec_perform64 enc0 dec0
      (mp3codec_quality stFailBypass 5 oracleOk oracleOk).1 [(1, 1)]).2 ≠ [(0, 0)] := by
  rw [quality_unchanged_aux stFailBypass 5 oracleOk oracleOk (by decide)]
  refine ⟨rfl, rfl, ?_⟩
  simp [mp3codec_perform64, stFailBypass, st0]

/-- C10 amended: if initialization previously failed (buffers and handles
NULL) and a quality message carrying the current quality arrives, the handler
still sets `initialized` to 1 without rebuilding anything; in that state,
provided bypass is disabled, every perform invocation detects the NULL buffer
pointers, emits zero output for the whole block, and returns without touching
any buffer — so `initialized = 1` alone does not imply a usable pipeline. -/
theorem stale_initialized_silence (st : CState) (n : Int) (o1 o2 : LameOracle)
    (enc : List (Int × Int) → List Nat) (dec : List Nat → Int × List (Int × Int))
    (ins : List (ℚ × ℚ))
    (hq : CLAMP n 0 9 = st.quality) (hb : st.buffersPresent = false)
    (hby : st.bypass = false) :
    (mp3codec_quality st n o1 o2).1.initialized = true ∧
    (mp3codec_quality st n o1 o2).1.buffersPresent = false ∧
    mp3codec_perform64 enc dec (mp3codec_quality st n o1 o2).1 ins
      = ((mp3codec_quality st n o1 o2).1, List.replicate ins.length (0, 0)) := by
  rw [quality_unchanged_aux st n o1 o2 hq]
  refine ⟨rfl, hb, ?_⟩
  simp [mp3codec_perform64, hb, hby]

/-- Witness for the amended C10 at a concrete failed-then-re-armed state. -/
theorem stale_initialized_silence_witness :
    CLAMP 5 0 9 = stFail.quality ∧
    stFail.buffersPresent = false ∧
    stFail.bypass = false ∧
    ((mp3codec_quality stFail 5 oracleOk oracleOk).1.initialized = true ∧
      (mp3codec_quality stFail 5 oracleOk oracleOk).1.buffersPresent = false ∧
      mp3codec_perform64 enc0 dec0
          (mp3codec_quality stFail 5 oracleOk oracleOk).1 [(1, 1)]
        = ((mp3codec_quality stFail 5 oracleOk oracleOk).1, List.replicate 1 (0, 0))) :=
  ⟨by decide, rfl, rfl,
    stale_initialized_silence stFail 5 oracleOk oracleOk enc0 dec0 [(1, 1)]
      (by decide) rfl rfl⟩

/-- The wrap-around cursor advance always stays below the capacity. -/
theorem ringAdvance_lt (p : Nat) : ringAdvance p < ringSize := by
  unfold ringAdvance ringSize MP3_FRAME_SIZE
  split <;> omega

/-- Below the capacity, the cursor advance is addition modulo the capacity. -/
theorem ringAdvance_eq_mod (p : Nat) (hp : p < ringSize) :
    ringAdvance p = (p + 1) % ringSize := by
  unfold ringAdvance at *
  unfold ringSize MP3_FRAME_SIZE at *
  split <;> omega

/-- With delay compensation disabled the read gate always passes. -/
theorem ring_read_one_comp_off (g : ℚ) (t : Int) (r : RingBuf) :
    ring_read_one g t false r =
      ((r.dataL r.readPos * g, r.dataR r.readPos * g),
       { r with readPos := ringAdvance r.readPos }) := by
  unfold ring_read_one
  rw [if_pos (Or.inr rfl)]

/-- With delay compensation disabled, reading `n` samples emits the `n` ring
cells following the read cursor, in order, scaled by the output gain. -/
theorem ring_read_spec (g : ℚ) (t : Int) (n : Nat) :
    ∀ r : RingBuf, r.readPos < ringSize →
    (ring_read g t false r n).1 =
      (List.range n).map (fun i =>
        (r.dataL ((r.readPos + i) % ringSize) * g,
         r.dataR ((r.readPos + i) % ringSize) * g)) := by
  induction n with
  | zero => intro r _; rfl
  | succ n ih =>
    intro r hr
    rw [List.range_succ_eq_map, List.map_cons, List.map_map]
    show (ring_read_one g t false r).1 ::
        (ring_read g t false (ring_read_one g t false r).2 n).1 = _
    rw [ring_read_one_comp_off]
    congr 1
    · rw [Nat.add_zero, Nat.mod_eq_of_lt hr]
    · rw [ih _ (ringAdvance_lt r.readPos)]
      apply List.map_congr_left
      intro i _
      simp only [Function.comp_apply]
      show (r.dataL ((ringAdvance r.readPos + i) % ringSize) * g,
            r.dataR ((ringAdvance r.readPos + i) % ringSize) * g) = _
      rw [ringAdvance_eq_mod _ hr, Nat.mod_add_mod]
      have hrw : r.readPos + 1 + i = r.readPos + (i + 1) := by omega
      rw [hrw]

/-- Unfolding one write into the fold. -/
theorem ring_write_cons (r : RingBuf) (x : ℚ × ℚ) (xs : List (ℚ × ℚ)) :
    ring_write r (x :: xs) = ring_write (ring_write_one r x) xs := rfl

/-- Writing never moves the read cursor. -/
theorem ring_write_readPos (xs : List (ℚ × ℚ)) :
    ∀ r : RingBuf, (ring_write r xs).readPos = r.readPos := by
  induction xs with
  | nil => intro r; rfl
  | cons x xs ih =>
    intro r
    rw [ring_write_cons, ih]
    rfl

/-- A run of writes leaves every cell outside its cursor range untouched. -/
theorem ring_write_preserve (xs : List (ℚ × ℚ)) :
    ∀ (r : RingBuf) (q : Nat), r.writePos < ringSize →
    (∀ j, j < xs.length → (r.writePos + j) % ringSize ≠ q) →
    (ring_write r xs).dataL q = r.dataL q ∧ (ring_write r xs).dataR q = r.dataR q := by
  induction xs with
  | nil => intro r q _ _; exact ⟨rfl, rfl⟩
  | cons x xs ih =>
    intro r q hw h
    rw [ring_write_cons]
    have hq0 : r.writePos ≠ q := by
      have h0 := h 0 (by simp)
      rwa [Nat.add_zero, Nat.mod_eq_of_lt hw] at h0
    have hrec := ih (ring_write_one r x) q (by
      rw [show (ring_write_one r x).writePos = ringAdvance r.writePos from rfl]
      exact ringAdvance_lt _) (by
      intro j hj
      rw [show (ring_write_one r x).writePos = ringAdvance r.writePos from rfl,
          ringAdvance_eq_mod _ hw, Nat.mod_add_mod]
      have hj1 := h (j + 1) (by simpa using Nat.succ_lt_succ hj)
      rw [show r.writePos + 1 + j = r.writePos + (j + 1) by omega]
      exact hj1)
    obtain ⟨hL, hR⟩ := hrec
    refine ⟨?_, ?_⟩
    · rw [hL]
      exact Function.update_noteq (Ne.symm hq0) _ _
    · rw [hR]
      exact Function.update_noteq (Ne.symm hq0) _ _

/-- After writing a run of at most capacity-many samples, the cell at offset
`i` from the initial write cursor holds the `i`-th written sample. -/
theorem ring_write_get (xs : List (ℚ × ℚ)) :
    ∀ (r : RingBuf) (i : Nat), r.writePos < ringSize → xs.length ≤ ringSize →
    i < xs.length →
    (ring_write r xs).dataL ((r.writePos + i) % ringSize) = (xs.getD i (0, 0)).1 ∧
    (ring_write r xs).dataR ((r.writePos + i) % ringSize) = (xs.getD i (0, 0)).2 := by
  induction xs with
  | nil => intro r i _ _ hi; simp at hi
  | cons x xs ih =>
    intro r i hw hlen hi
    rw [ring_write_cons]
    match i with
    | 0 =>
      rw [Nat.add_zero, Nat.mod_eq_of_lt hw]
      have hpres := ring_write_preserve xs (ring_write_one r x) r.writePos (by
        rw [show (ring_write_one r x).writePos = ringAdvance r.writePos from rfl]
        exact ringAdvance_lt _) (by
        intro j hj
        rw [show (ring_write_one r x).writePos = ringAdvance r.writePos from rfl,
            ringAdvance_eq_mod _ hw, Nat.mod_add_mod]
        have hlen1 : xs.length + 1 ≤ ringSize := by simpa using hlen
        unfold ringSize MP3_FRAME_SIZE at *
        omega)
      obtain ⟨hL, hR⟩ := hpres
      refine ⟨?_, ?_⟩
      · rw [hL]
        exact Function.update_same _ _ _
      · rw [hR]
        exact Function.update_same _ _ _
    | Nat.succ j =>
      have hstep : r.writePos + (j + 1) = r.writePos + 1 + j := by omega
      have hadv : (ring_write_one r x).writePos = ringAdvance r.writePos := rfl
      have hj : j < xs.length := by simpa using hi
      have hrec := ih (ring_write_one r x) j (by rw [hadv]; exact ringAdvance_lt _)
        (by simp at hlen; omega) hj
      rw [hstep, ← Nat.mod_add_mod, ← ringAdvance_eq_mod _ hw, ← hadv]
      simpa using hrec

/-- C4 amended: with delay compensation disabled, for a ring whose read cursor
equals the write cursor (no pending backlog) and any run of at most
capacity-many samples, writing the run and then reading the same count returns
exactly those samples, scaled by the output gain, in the order written. -/
theorem ring_roundtrip (r : RingBuf) (xs : List (ℚ × ℚ)) (g : ℚ) (t : Int)
    (hw : r.writePos < ringSize) (he : r.readPos = r.writePos)
    (hn : xs.length ≤ ringSize) :
    (ring_read g t false (ring_write r xs) xs.length).1
      = xs.map (fun p => (p.1 * g, p.2 * g)) := by
  have hrp : (ring_write r xs).readPos < ringSize := by
    rw [ring_write_readPos, he]
    exact hw
  rw [ring_read_spec g t xs.length (ring_write r xs) hrp]
  apply List.ext_getElem
  · simp
  · intro i h1 h2
    simp only [List.getElem_map, List.getElem_range]
    rw [ring_write_readPos, he]
    have hi : i < xs.length := by simpa using h2
    obtain ⟨hL, hR⟩ := ring_write_get xs r i hw hn hi
    rw [hL, hR, List.getD_eq_getElem xs (0, 0) hi]

/-- Witness for the amended C4: an empty fresh ring, one sample, gain 2. -/
theorem ring_roundtrip_witness :
    freshRing.writePos < ringSize ∧ freshRing.readPos = freshRing.writePos ∧
    ([((3 : ℚ), (4 : ℚ))]).length ≤ ringSize ∧
    (ring_read 2 2256 false (ring_write freshRing [((3 : ℚ), (4 : ℚ))])
        [((3 : ℚ), (4 : ℚ))].length).1
      = [((3 : ℚ), (4 : ℚ))].map (fun p => (p.1 * 2, p.2 * 2)) :=
  ⟨by decide, rfl, by decide,
    ring_roundtrip freshRing [(3, 4)] 2 2256 (by decide) rfl (by decide)⟩

/-- The ring state with one pending unread sample used in the C4
counterexample: the write cursor is one cell ahead of the read cursor. -/
def ringPending : RingBuf :=
  { dataL := fun _ => 0, dataR := fun _ => 0, writePos := 1, readPos := 0 }

/-- C4 counterexample: writing one sample into a ring that has a pending
unread cell and reading one sample back (no lap: the backlog plus the written
count stays within capacity) returns the older pending cell, not the sample
just written — so the claim needs the read cursor to equal the write cursor,
not merely absence of lapping. -/
theorem ring_roundtrip_cex :
    (1 : Nat) ≤ ringSize ∧
    ring_available ringPending + 1 ≤ (ringSize : Int) ∧
    (ring_read 1 2256 false (ring_write ringPending [((5 : ℚ), (5 : ℚ))]) 1).1
      ≠ [((5 : ℚ) * 1, (5 : ℚ) * 1)] := by
  refine ⟨by decide, by decide, ?_⟩
  have hval : (ring_read 1 2256 false (ring_write ringPending [((5 : ℚ), (5 : ℚ))]) 1).1
      = [(0, 0)] := by
    simp [ring_read, ring_read_one, ring_write, ring_write_one, ring_available,
      ringPending, ringAdvance, ringSize, MP3_FRAME_SIZE, Function.update]
  rw [hval]
  norm_num [Prod.ext_iff]

/-- The decode stage never touches the encode buffer, the flags, or the gain. -/
theorem decode_branch_fields (dec : List Nat → Int × List (Int × Int))
    (st : CState) (bytes : List Nat) :
    (decode_branch dec st bytes).encodeBuf = st.encodeBuf ∧
    (decode_branch dec st bytes).initialized = st.initialized ∧
    (decode_branch dec st bytes).handlesPresent = st.handlesPresent ∧
    (decode_branch dec st bytes).input_gain = st.input_gain := by
  simp only [decode_branch]
  split_ifs <;> exact ⟨rfl, rfl, rfl, rfl⟩

/-- Handing a frame to the encoder resets the encode buffer fill and leaves
the flags and the gain unchanged. -/
theorem emit_frame_fields (enc : List (Int × Int) → List Nat)
    (dec : List Nat → Int × List (Int × Int)) (st : CState) (buf : List (ℚ × ℚ)) :
    (emit_frame enc dec st buf).encodeBuf = [] ∧
    (emit_frame enc dec st buf).initialized = st.initialized ∧
    (emit_frame enc dec st buf).handlesPresent = st.handlesPresent ∧
    (emit_frame enc dec st buf).input_gain = st.input_gain := by
  unfold emit_frame
  split_ifs with h
  · simpa using decode_branch_fields dec { st with encodeBuf := [] }
      (enc (buf.map (fun p => (float_to_short p.1, float_to_short p.2))))
  · exact ⟨rfl, rfl, rfl, rfl⟩

/-- One accumulation step on a healthy state (flags set, fill below the frame
size): the loop does not break, any frame it emits is exactly one frame long,
the emitted frames followed by the new fill equal the old fill followed by the
gain-scaled sample, and the flags, the gain and the fill bound are preserved. -/
theorem process_sample_spec (enc : List (Int × Int) → List Nat)
    (dec : List Nat → Int × List (Int × Int)) (st : CState) (s : ℚ × ℚ)
    (h1 : st.initialized = true) (h2 : st.handlesPresent = true)
    (h3 : st.encodeBuf.length < MP3_FRAME_SIZE) :
    (process_sample enc dec st s).2.2 = false ∧
    (∀ f ∈ (process_sample enc dec st s).2.1, f.length = MP3_FRAME_SIZE) ∧
    (process_sample enc dec st s).2.1.flatten ++ (process_sample enc dec st s).1.encodeBuf
      = st.encodeBuf ++ [(s.1 * st.input_gain, s.2 * st.input_gain)] ∧
    (process_sample enc dec st s).1.initialized = true ∧
    (process_sample enc dec st s).1.handlesPresent = true ∧
    (process_sample enc dec st s).1.input_gain = st.input_gain ∧
    (process_sample enc dec st s).1.encodeBuf.length < MP3_FRAME_SIZE := by
  unfold process_sample
  by_cases hge :
      (st.encodeBuf ++ [(s.1 * st.input_gain, s.2 * st.input_gain)]).length
        ≥ MP3_FRAME_SIZE
  · rw [if_pos hge, if_neg (by simp [h1, h2])]
    obtain ⟨hE, hI, hH, hG⟩ := emit_frame_fields enc dec st
      (st.encodeBuf ++ [(s.1 * st.input_gain, s.2 * st.input_gain)])
    have hlen :
        (st.encodeBuf ++ [(s.1 * st.input_gain, s.2 * st.input_gain)]).length
          = MP3_FRAME_SIZE := by
      rw [List.length_append, List.length_singleton] at hge ⊢
      omega
    refine ⟨rfl, ?_, ?_, ?_, ?_, ?_, ?_⟩
    · intro f hf
      simp only [List.mem_singleton] at hf
      rw [hf]
      exact hlen
    · rw [hE]
      simp
    · rw [hI]
      exact h1
    · rw [hH]
      exact h2
    · exact hG
    · rw [hE]
      simp [MP3_FRAME_SIZE]
  · rw [if_neg hge]
    refine ⟨rfl, by simp, by simp, h1, h2, rfl, ?_⟩
    simpa using Nat.lt_of_not_le (by simpa using hge)

/-- The accumulation loop over one host block on a healthy state: it never
breaks, every emitted frame is exactly one frame long, the emitted frames
followed by the final fill equal the initial fill followed by the gain-scaled
block, and the flags, the gain and the fill bound are preserved. -/
theorem process_input_spec (enc : List (Int × Int) → List Nat)
    (dec : List Nat → Int × List (Int × Int)) (ins : List (ℚ × ℚ)) :
    ∀ st : CState, st.initialized = true → st.handlesPresent = true →
    st.encodeBuf.length < MP3_FRAME_SIZE →
    (∀ f ∈ (process_input enc dec st ins).2, f.length = MP3_FRAME_SIZE) ∧
    (process_input enc dec st ins).2.flatten ++ (process_input enc dec st ins).1.encodeBuf
      = st.encodeBuf ++ ins.map (fun p => (p.1 * st.input_gain, p.2 * st.input_gain)) ∧
    (process_input enc dec st ins).1.initialized = true ∧
    (process_input enc dec st ins).1.handlesPresent = true ∧
    (process_input enc dec st ins).1.input_gain = st.input_gain ∧
    (process_input enc dec st ins).1.encodeBuf.length < MP3_FRAME_SIZE := by
  induction ins with
  | nil =>
    intro st h1 h2 h3
    exact ⟨by simp [process_input], by simp [process_input], h1, h2, rfl, h3⟩
  | cons s rest ih =>
    intro st h1 h2 h3
    obtain ⟨hbrk, hfr1, heq1, hI1, hH1, hG1, hB1⟩ := process_sample_spec enc dec st s h1 h2 h3
    obtain ⟨hfr2, heq2, hI2, hH2, hG2, hB2⟩ :=
      ih (process_sample enc dec st s).1 hI1 hH1 hB1
    have hrw : process_input enc dec st (s :: rest)
        = ((process_input enc dec (process_sample enc dec st s).1 rest).1,
           (process_sample enc dec st s).2.1
             ++ (process_input enc dec (process_sample enc dec st s).1 rest).2) := by
      simp only [process_input, hbrk]
      rfl
    rw [hrw]
    dsimp only
    refine ⟨?_, ?_, hI2, hH2, hG1 ▸ hG2, hB2⟩
    · intro f hf
      rcases List.mem_append.mp hf with hf1 | hf2
      · exact hfr1 f hf1
      · exact hfr2 f hf2
    · rw [List.flatten_append, List.append_assoc, heq2, hG1, ← List.append_assoc, heq1,
        List.append_assoc, List.map_cons]
      rfl

/-- The accumulation loop over a whole sequence of host blocks on a healthy
state, with the same guarantees as for a single block. -/
theorem process_blocks_spec (enc : List (Int × Int) → List Nat)
    (dec : List Nat → Int × List (Int × Int)) (blocks : List (List (ℚ × ℚ))) :
    ∀ st : CState, st.initialized = true → st.handlesPresent = true →
    st.encodeBuf.length < MP3_FRAME_SIZE →
    (∀ f ∈ (process_blocks enc dec st blocks).2, f.length = MP3_FRAME_SIZE) ∧
    (process_blocks enc dec st blocks).2.flatten
        ++ (process_blocks enc dec st blocks).1.encodeBuf
      = st.encodeBuf
        ++ blocks.flatten.map (fun p => (p.1 * st.input_gain, p.2 * st.input_gain)) ∧
    (process_blocks enc dec st blocks).1.initialized = true ∧
    (process_blocks enc dec st blocks).1.handlesPresent = true ∧
    (process_blocks enc dec st blocks).1.input_gain = st.input_gain ∧
    (process_blocks enc dec st blocks).1.encodeBuf.length < MP3_FRAME_SIZE := by
  induction blocks with
  | nil =>
    intro st h1 h2 h3
    exact ⟨by simp [process_blocks], by simp [process_blocks], h1, h2, rfl, h3⟩
  | cons b bs ih =>
    intro st h1 h2 h3
    obtain ⟨hfr1, heq1, hI1, hH1, hG1, hB1⟩ := process_input_spec enc dec b st h1 h2 h3
    obtain ⟨hfr2, heq2, hI2, hH2, hG2, hB2⟩ :=
      ih (process_input enc dec st b).1 hI1 hH1 hB1
    have hrw : process_blocks enc dec st (b :: bs)
        = ((process_blocks enc dec (process_input enc dec st b).1 bs).1,
           (process_input enc dec st b).2
             ++ (process_blocks enc dec (process_input enc dec st b).1 bs).2) := rfl
    rw [hrw]
    dsimp only
    refine ⟨?_, ?_, hI2, hH2, hG1 ▸ hG2, hB2⟩
    · intro f hf
      rcases List.mem_append.mp hf with hf1 | hf2
      · exact hfr1 f hf1
      · exact hfr2 f hf2
    · rw [List.flatten_append, List.append_assoc, heq2, hG1, ← List.append_assoc, heq1,
        List.append_assoc, ← List.map_append, ← List.flatten_cons]

/-- The flattened length of a list of equal-length frames. -/
theorem flatten_length_const (l : List (List (ℚ × ℚ))) (c : Nat)
    (h : ∀ f ∈ l, f.length = c) : l.flatten.length = l.length * c := by
  induction l with
  | nil => simp
  | cons a l ih =>
    rw [List.flatten_cons, List.length_append, List.length_cons,
      ih (fun f hf => h f (List.mem_cons_of_mem a hf)), h a (List.mem_cons_self a l)]
    ring

/-- C1: for every sequence of host blocks whose lengths sum to `k` frames, the
frame accumulator inside the perform routine emits exactly `k` complete frames
to the encoder, the concatenation of the emitted frames is the gain-scaled
input in its original order, every emitted frame is exactly one frame long —
no frame reaches the encoder with fill below the frame size — and the
accumulator fill ends at zero. -/
theorem frame_accumulator_emits_k_frames (enc : List (Int × Int) → List Nat)
    (dec : List Nat → Int × List (Int × Int)) (st : CState)
    (blocks : List (List (ℚ × ℚ))) (k : Nat)
    (h1 : st.initialized = true) (h2 : st.handlesPresent = true)
    (h3 : st.encodeBuf = [])
    (hk : blocks.flatten.length = k * MP3_FRAME_SIZE) :
    (process_blocks enc dec st blocks).2.length = k ∧
    (∀ f ∈ (process_blocks enc dec st blocks).2, f.length = MP3_FRAME_SIZE) ∧
    (process_blocks enc dec st blocks).2.flatten
      = blocks.flatten.map (fun p => (p.1 * st.input_gain, p.2 * st.input_gain)) ∧
    (process_blocks enc dec st blocks).1.encodeBuf = [] := by
  obtain ⟨hfr, heq, hI, hH, hG, hB⟩ := process_blocks_spec enc dec blocks st h1 h2
    (by rw [h3]; simp [MP3_FRAME_SIZE])
  rw [h3, List.nil_append] at heq
  have hflat : (process_blocks enc dec st blocks).2.flatten.length
      = (process_blocks enc dec st blocks).2.length * MP3_FRAME_SIZE :=
    flatten_length_const _ _ hfr
  have hlen : (process_blocks enc dec st blocks).2.flatten.length
      + (process_blocks enc dec st blocks).1.encodeBuf.length
      = k * MP3_FRAME_SIZE := by
    have hcg := congrArg List.length heq
    rwa [List.length_append, List.length_map, hk] at hcg
  have hzero : (process_blocks enc dec st blocks).1.encodeBuf.length = 0 ∧
      (process_blocks enc dec st blocks).2.length = k := by
    rw [hflat] at hlen
    unfold MP3_FRAME_SIZE at hlen hB
    omega
  obtain ⟨hz, hkk⟩ := hzero
  have hnil : (process_blocks enc dec st blocks).1.encodeBuf = [] :=
    List.length_eq_zero.mp hz
  rw [hnil, List.append_nil] at heq
  exact ⟨hkk, hfr, heq, hnil⟩

/-- Witness for C1: one block of exactly one frame of samples yields one frame. -/
theorem frame_accumulator_emits_k_frames_witness :
    st0.initialized = true ∧ st0.handlesPresent = true ∧ st0.encodeBuf = [] ∧
    ([List.replicate 1152 ((1 : ℚ), (1 : ℚ))] : List (List (ℚ × ℚ))).flatten.length
      = 1 * MP3_FRAME_SIZE ∧
    ((process_blocks enc0 dec0 st0 [List.replicate 1152 ((1 : ℚ), (1 : ℚ))]).2.length = 1 ∧
      (∀ f ∈ (process_blocks enc0 dec0 st0 [List.replicate 1152 ((1 : ℚ), (1 : ℚ))]).2,
        f.length = MP3_FRAME_SIZE) ∧
      (process_blocks enc0 dec0 st0 [List.replicate 1152 ((1 : ℚ), (1 : ℚ))]).2.flatten
        = ([List.replicate 1152 ((1 : ℚ), (1 : ℚ))] : List (List (ℚ × ℚ))).flatten.map
            (fun p => (p.1 * st0.input_gain, p.2 * st0.input_gain)) ∧
      (process_blocks enc0 dec0 st0 [List.replicate 1152 ((1 : ℚ), (1 : ℚ))]).1.encodeBuf
        = []) :=
  ⟨rfl, rfl, rfl,
    by rw [List.flatten_cons, List.flatten_nil, List.append_nil, List.length_replicate,
           Nat.one_mul, MP3_FRAME_SIZE],
    frame_accumulator_emits_k_frames enc0 dec0 st0
      [List.replicate 1152 ((1 : ℚ), (1 : ℚ))] 1 rfl rfl rfl
      (by rw [List.flatten_cons, List.flatten_nil, List.append_nil, List.length_replicate,
              Nat.one_mul, MP3_FRAME_SIZE])⟩

end Mp3Codec
